import Mathlib

/-!
Verification of the template-customizer scripts of the `pain` repository
(`customize_scripts.py`, `customize_all.py`, `fix_all_pages.py`).

Texts are modelled as `List Char`.  Python `str.replace(old, new)` and
`re.sub` with a literal pattern both substitute every occurrence of the
pattern, scanning left to right, non-overlapping, in a single pass over
the input (the replacement text is not rescanned).  `replaceAll` below
implements exactly that semantics.
-/

set_option maxHeartbeats 2000000

/-- the list of characters of a string literal. -/
def str (s : String) : List Char := s.data

/-- the single-quote character (written via its code point so that the
source stays free of quote characters). -/
def apos : Char := Char.ofNat 39

/-- a text wrapped in single quotes, as in the python patterns. -/
def squo (s : List Char) : List Char := apos :: (s ++ [apos])

/-- Boolean test: the first list is a prefix of the second. -/
def isPre : List Char → List Char → Bool
  | [], _ => true
  | _ :: _, [] => false
  | a :: as, b :: bs => a == b && isPre as bs

/-- Boolean test: the first list is a suffix of the second. -/
def isSuf (p : List Char) : List Char → Bool
  | [] => p.isEmpty
  | c :: s => p == c :: s || isSuf p s

/-- Boolean test: the first list occurs as a contiguous substring of the
second. -/
def hasSub (p : List Char) : List Char → Bool
  | [] => p.isEmpty
  | c :: s => isPre p (c :: s) || hasSub p s

/-- fuel-driven worker for `replaceAll`; the fuel only serves structural
recursion and is irrelevant as soon as it dominates the length of the
text (`replaceAllF_congr`). -/
def replaceAllF (p r : List Char) : Nat → List Char → List Char
  | _, [] => []
  | 0, c :: s => c :: s
  | n + 1, c :: s =>
    if isPre p (c :: s) then r ++ replaceAllF p r n (List.drop p.length (c :: s))
    else c :: replaceAllF p r n s

/-- Python `text.replace(p, r)` for a non-empty literal pattern `p`:
replace every occurrence of `p` in the text by `r`, scanning left to
right, non-overlapping, without rescanning the replacement.  (The empty
pattern never occurs in the scripts; it is mapped to the identity.) -/
def replaceAll (p r s : List Char) : List Char :=
  if p = [] then s else replaceAllF p r s.length s

/-- sequential application of a list of replacement rules, exactly like
the `for old, new in replacements: content = content.replace(old, new)`
loops of the source. -/
def applyReps (rs : List (List Char × List Char)) (s : List Char) : List Char :=
  rs.foldl (fun c pr => replaceAll pr.1 pr.2 c) s

/-- Python `str.lower` on the ascii texts used by the scripts. -/
def lowerStr (s : List Char) : List Char := s.map Char.toLower

/-- Python `name.replace(" ", "")`. -/
def removeSpaces (s : List Char) : List Char := replaceAll (str " ") [] s

/-- worker for `pyTitle`; the flag records whether the previous character
was cased (a letter, for the ascii texts at hand). -/
def pyTitleF : Bool → List Char → List Char
  | _, [] => []
  | prevCased, c :: s =>
    if c.isAlpha then
      (if prevCased then c.toLower else c.toUpper) :: pyTitleF true s
    else c :: pyTitleF false s

/-- Python `str.title`: the first letter of every run of letters is
uppercased, the remaining letters lowercased. -/
def pyTitle (s : List Char) : List Char := pyTitleF false s

/-- join a list of fragments, interleaving a fixed separator. -/
def joinWith (sep : List Char) : List (List Char) → List Char
  | [] => []
  | [x] => x
  | x :: y :: xs => x ++ sep ++ joinWith sep (y :: xs)

theorem replaceAllF_congr (p r : List Char) (hp : p ≠ []) :
    ∀ n m s, s.length ≤ n → s.length ≤ m →
      replaceAllF p r n s = replaceAllF p r m s := by
  have hlp : 0 < p.length := List.length_pos.mpr hp
  intro n
  induction n with
  | zero =>
    intro m s hn _
    have hs : s = [] := List.eq_nil_of_length_eq_zero (Nat.le_zero.mp hn)
    subst hs
    cases m <;> rfl
  | succ n ih =>
    intro m s hn hm
    cases s with
    | nil => cases m <;> rfl
    | cons c s' =>
      cases m with
      | zero => exact absurd hm (by simp)
      | succ m =>
        show (if isPre p (c :: s') then _ else _) = (if isPre p (c :: s') then _ else _)
        by_cases h : isPre p (c :: s') = true
        · rw [if_pos h, if_pos h]
          have hlen : (List.drop p.length (c :: s')).length ≤ n := by
            have := List.length_drop p.length (c :: s')
            simp only [List.length_cons] at hn this ⊢
            omega
          have hlen' : (List.drop p.length (c :: s')).length ≤ m := by
            have := List.length_drop p.length (c :: s')
            simp only [List.length_cons] at hm this ⊢
            omega
          rw [ih m _ hlen hlen']
        · rw [if_neg h, if_neg h]
          have h1 : s'.length ≤ n := by simp at hn; omega
          have h2 : s'.length ≤ m := by simp at hm; omega
          rw [ih m s' h1 h2]

theorem replaceAll_nil (p r : List Char) : replaceAll p r [] = [] := by
  unfold replaceAll
  by_cases h : p = [] <;> simp [h, replaceAllF]

theorem replaceAll_pos (p r : List Char) (c : Char) (s : List Char)
    (hp : p ≠ []) (h : isPre p (c :: s) = true) :
    replaceAll p r (c :: s) =
      r ++ replaceAll p r (List.drop p.length (c :: s)) := by
  have hlp : 0 < p.length := List.length_pos.mpr hp
  unfold replaceAll
  rw [if_neg hp, if_neg hp]
  show replaceAllF p r (s.length + 1) (c :: s) = _
  show (if isPre p (c :: s) then
      r ++ replaceAllF p r s.length (List.drop p.length (c :: s))
    else c :: replaceAllF p r s.length s) = _
  rw [if_pos h]
  have hd : (List.drop p.length (c :: s)).length ≤ s.length := by
    have := List.length_drop p.length (c :: s)
    simp only [List.length_cons] at this ⊢
    omega
  rw [replaceAllF_congr p r hp s.length (List.drop p.length (c :: s)).length _ hd le_rfl]

theorem replaceAll_neg (p r : List Char) (c : Char) (s : List Char)
    (hp : p ≠ []) (h : isPre p (c :: s) = false) :
    replaceAll p r (c :: s) = c :: replaceAll p r s := by
  unfold replaceAll
  rw [if_neg hp, if_neg hp]
  show replaceAllF p r (s.length + 1) (c :: s) = _
  show (if isPre p (c :: s) then
      r ++ replaceAllF p r s.length (List.drop p.length (c :: s))
    else c :: replaceAllF p r s.length s) = _
  rw [if_neg (by simp [h])]

theorem isPre_iff : ∀ p s : List Char, isPre p s = true ↔ ∃ t, s = p ++ t
  | [], s => by simp [isPre]
  | a :: as, [] => by simp [isPre]
  | a :: as, b :: bs => by
    simp only [isPre, Bool.and_eq_true, beq_iff_eq, List.cons_append, List.cons.injEq]
    constructor
    · rintro ⟨rfl, h⟩
      obtain ⟨t, rfl⟩ := (isPre_iff as bs).1 h
      exact ⟨t, rfl, rfl⟩
    · rintro ⟨t, rfl, rfl⟩
      exact ⟨rfl, (isPre_iff as _).2 ⟨t, rfl⟩⟩

theorem isSuf_iff (p : List Char) : ∀ s, isSuf p s = true ↔ ∃ t, s = t ++ p := by
  intro s
  induction s with
  | nil =>
    simp only [isSuf, List.isEmpty_iff]
    constructor
    · rintro rfl; exact ⟨[], rfl⟩
    · rintro ⟨t, ht⟩
      rcases List.append_eq_nil.mp ht.symm with ⟨_, h2⟩
      exact h2
  | cons c s ih =>
    simp only [isSuf, Bool.or_eq_true, beq_iff_eq, ih]
    constructor
    · rintro (rfl | ⟨t, rfl⟩)
      · exact ⟨[], rfl⟩
      · exact ⟨c :: t, rfl⟩
    · rintro ⟨t, ht⟩
      cases t with
      | nil => exact Or.inl (by simpa using ht.symm)
      | cons x t =>
        simp only [List.cons_append, List.cons.injEq] at ht
        exact Or.inr ⟨t, ht.2⟩

theorem hasSub_iff (p : List Char) : ∀ s, hasSub p s = true ↔ ∃ a b, s = a ++ p ++ b := by
  intro s
  induction s with
  | nil =>
    simp only [hasSub, List.isEmpty_iff]
    constructor
    · rintro rfl; exact ⟨[], [], rfl⟩
    · rintro ⟨a, b, h⟩
      rcases List.append_eq_nil.mp h.symm with ⟨h1, _⟩
      rcases List.append_eq_nil.mp h1 with ⟨_, h3⟩
      exact h3
  | cons c s ih =>
    simp only [hasSub, Bool.or_eq_true, isPre_iff, ih]
    constructor
    · rintro (⟨t, ht⟩ | ⟨a, b, rfl⟩)
      · exact ⟨[], t, by simp [ht]⟩
      · exact ⟨c :: a, b, rfl⟩
    · rintro ⟨a, b, h⟩
      cases a with
      | nil => exact Or.inl ⟨b, by simpa using h⟩
      | cons x a =>
        simp only [List.cons_append, List.cons.injEq] at h
        exact Or.inr ⟨a, b, h.2⟩

theorem isPre_length {p s : List Char} (h : isPre p s = true) : p.length ≤ s.length := by
  obtain ⟨t, rfl⟩ := (isPre_iff p s).1 h
  simp

theorem isPre_refl (p : List Char) : isPre p p = true :=
  (isPre_iff p p).2 ⟨[], by simp⟩

theorem isSuf_refl (p : List Char) : isSuf p p = true :=
  (isSuf_iff p p).2 ⟨[], rfl⟩

theorem isSuf_cons_of {p s : List Char} (c : Char) (h : isSuf p s = true) :
    isSuf p (c :: s) = true := by
  simp only [isSuf, Bool.or_eq_true]
  exact Or.inr h

theorem hasSub_cons_of {p s : List Char} (c : Char) (h : hasSub p s = true) :
    hasSub p (c :: s) = true := by
  simp only [hasSub, Bool.or_eq_true]
  exact Or.inr h

theorem hasSub_of_isPre {p s : List Char} (h : isPre p s = true) : hasSub p s = true := by
  cases s with
  | nil =>
    obtain ⟨t, ht⟩ := (isPre_iff p []).1 h
    rcases List.append_eq_nil.mp ht.symm with ⟨rfl, _⟩
    rfl
  | cons c s =>
    simp only [hasSub, Bool.or_eq_true]
    exact Or.inl h

theorem hasSub_append_right {p b : List Char} (a : List Char) (h : hasSub p b = true) :
    hasSub p (a ++ b) = true := by
  obtain ⟨x, y, rfl⟩ := (hasSub_iff p b).1 h
  exact (hasSub_iff p _).2 ⟨a ++ x, y, by simp⟩

theorem hasSub_append_left {p a : List Char} (b : List Char) (h : hasSub p a = true) :
    hasSub p (a ++ b) = true := by
  obtain ⟨x, y, rfl⟩ := (hasSub_iff p a).1 h
  exact (hasSub_iff p _).2 ⟨x, y ++ b, by simp⟩

theorem isPre_append_of {p a : List Char} (b : List Char) (h : isPre p a = true) :
    isPre p (a ++ b) = true := by
  obtain ⟨t, rfl⟩ := (isPre_iff p a).1 h
  exact (isPre_iff p _).2 ⟨t ++ b, by simp⟩

theorem isPre_append_cases :
    ∀ (a q b : List Char), isPre q (a ++ b) = true →
      isPre q a = true ∨ (isPre a q = true ∧ isPre (List.drop a.length q) b = true)
  | [], q, b => fun h => Or.inr ⟨rfl, h⟩
  | x :: a, [], b => fun _ => Or.inl rfl
  | x :: a, y :: q, b => by
    simp only [List.cons_append, isPre, Bool.and_eq_true, beq_iff_eq]
    rintro ⟨rfl, h⟩
    rcases isPre_append_cases a q b h with h1 | ⟨h1, h2⟩
    · exact Or.inl ⟨rfl, h1⟩
    · exact Or.inr ⟨⟨rfl, h1⟩, by simpa using h2⟩

theorem hasSub_append_cases (p : List Char) :
    ∀ (a b : List Char), hasSub p (a ++ b) = true →
      hasSub p a = true ∨ hasSub p b = true ∨
        ∃ k, 1 ≤ k ∧ k < p.length ∧
          isSuf (List.take k p) a = true ∧ isPre (List.drop k p) b = true := by
  intro a
  induction a with
  | nil => exact fun b h => Or.inr (Or.inl h)
  | cons c a ih =>
    intro b h
    simp only [List.cons_append, hasSub, Bool.or_eq_true] at h
    rcases h with h | h
    · rcases isPre_append_cases (c :: a) p b h with h1 | ⟨h1, h2⟩
      · exact Or.inl (hasSub_of_isPre h1)
      · rcases Nat.lt_or_ge (c :: a).length p.length with hlt | hge
        · refine Or.inr (Or.inr ⟨(c :: a).length, by simp, hlt, ?_, h2⟩)
          obtain ⟨t, rfl⟩ := (isPre_iff (c :: a) p).1 h1
          rw [List.take_left]
          exact isSuf_refl _
        · have hlen : (c :: a).length = p.length := le_antisymm (isPre_length h1) hge
          obtain ⟨t, ht⟩ := (isPre_iff (c :: a) p).1 h1
          have ht0 : t = [] := by
            have hl := congrArg List.length ht
            rw [List.length_append] at hl
            exact List.eq_nil_of_length_eq_zero (by omega)
          subst ht0
          simp only [List.append_nil] at ht
          exact Or.inl (hasSub_of_isPre (ht ▸ isPre_refl p))
    · rcases ih b h with h1 | h1 | ⟨k, hk1, hk2, hk3, hk4⟩
      · exact Or.inl (hasSub_cons_of c h1)
      · exact Or.inr (Or.inl h1)
      · exact Or.inr (Or.inr ⟨k, hk1, hk2, isSuf_cons_of c hk3, hk4⟩)

theorem drop_ne_nil_of_lt {p : List Char} {k : Nat} (hk : k < p.length) :
    List.drop k p ≠ [] := by
  intro h0
  have := congrArg List.length h0
  rw [List.length_drop] at this
  simp at this
  omega

theorem replaceAll_track (p p₂ r₂ : List Char) (hp₂ : p₂ ≠ [])
    (h3 : ∀ k, 1 ≤ k → k < p.length →
      isPre (List.drop k p) r₂ = false ∧ isPre r₂ (List.drop k p) = false) :
    ∀ n s, s.length ≤ n → ∀ k, 1 ≤ k → k < p.length →
      isPre (List.drop k p) (replaceAll p₂ r₂ s) = true →
      isPre (List.drop k p) s = true := by
  intro n
  induction n with
  | zero =>
    intro s hn k hk1 hk2 hpre
    have hs : s = [] := List.eq_nil_of_length_eq_zero (Nat.le_zero.mp hn)
    subst hs
    rw [replaceAll_nil] at hpre
    obtain ⟨t, ht⟩ := (isPre_iff _ _).1 hpre
    rcases List.append_eq_nil.mp ht.symm with ⟨h0, _⟩
    exact absurd h0 (drop_ne_nil_of_lt hk2)
  | succ n ih =>
    intro s hn k hk1 hk2 hpre
    cases s with
    | nil =>
      rw [replaceAll_nil] at hpre
      obtain ⟨t, ht⟩ := (isPre_iff _ _).1 hpre
      rcases List.append_eq_nil.mp ht.symm with ⟨h0, _⟩
      exact absurd h0 (drop_ne_nil_of_lt hk2)
    | cons c s' =>
      by_cases hm : isPre p₂ (c :: s') = true
      · rw [replaceAll_pos p₂ r₂ c s' hp₂ hm] at hpre
        rcases isPre_append_cases r₂ (List.drop k p) _ hpre with h' | ⟨h', _⟩
        · exact absurd h' (by simp [(h3 k hk1 hk2).1])
        · exact absurd h' (by simp [(h3 k hk1 hk2).2])
      · rw [Bool.not_eq_true] at hm
        rw [replaceAll_neg p₂ r₂ c s' hp₂ hm] at hpre
        cases hq : List.drop k p with
        | nil => exact absurd hq (drop_ne_nil_of_lt hk2)
        | cons d q' =>
          rw [hq] at hpre
          simp only [isPre, Bool.and_eq_true, beq_iff_eq] at hpre
          obtain ⟨hdc, hq'⟩ := hpre
          have hq'eq : q' = List.drop (k + 1) p := by
            rw [← List.drop_drop 1 k p, hq]
            rfl
          simp only [isPre, Bool.and_eq_true, beq_iff_eq]
          refine ⟨hdc, ?_⟩
          by_cases hq'nil : q' = []
          · simp [hq'nil, isPre]
          · have hk' : k + 1 < p.length := by
              by_contra hge
              refine hq'nil ?_
              rw [hq'eq]
              exact List.drop_eq_nil_of_le (by omega)
            have hs'len : s'.length ≤ n := by
              simp only [List.length_cons] at hn
              omega
            have hres := ih s' hs'len (k + 1) (by omega) hk' (hq'eq ▸ hq')
            rw [hq'eq]
            exact hres

theorem hasSub_nil_false {p : List Char} (hp : p ≠ []) : hasSub p [] = false := by
  cases p with
  | nil => exact absurd rfl hp
  | cons a as => rfl

theorem replaceAll_noResidue (p p₂ r₂ : List Char)
    (hp : p ≠ []) (hp₂ : p₂ ≠ [])
    (h1 : hasSub p r₂ = false)
    (h2 : ∀ k, 1 ≤ k → k < p.length → isSuf (List.take k p) r₂ = true →
      isSuf (List.take k p) p₂ = true ∧ isSuf (List.take k p) p = false)
    (h3 : ∀ k, 1 ≤ k → k < p.length →
      isPre (List.drop k p) r₂ = false ∧ isPre r₂ (List.drop k p) = false) :
    ∀ n s, s.length ≤ n → (p = p₂ ∨ hasSub p s = false) →
      hasSub p (replaceAll p₂ r₂ s) = false := by
  intro n
  induction n with
  | zero =>
    intro s hn _
    have hs : s = [] := List.eq_nil_of_length_eq_zero (Nat.le_zero.mp hn)
    subst hs
    rw [replaceAll_nil]
    exact hasSub_nil_false hp
  | succ n ih =>
    intro s hn hs
    cases s with
    | nil =>
      rw [replaceAll_nil]
      exact hasSub_nil_false hp
    | cons c s' =>
      by_cases hm : isPre p₂ (c :: s') = true
      · -- a match of the rewritten pattern at the head
        rw [replaceAll_pos p₂ r₂ c s' hp₂ hm]
        obtain ⟨t, ht⟩ := (isPre_iff p₂ (c :: s')).1 hm
        have hteq : List.drop p₂.length (c :: s') = t := by
          rw [ht, List.drop_left]
        by_contra hcon
        rw [Bool.not_eq_false] at hcon
        have hslen : (List.drop p₂.length (c :: s')).length ≤ n := by
          have hlp : 0 < p₂.length := List.length_pos.mpr hp₂
          rw [List.length_drop]
          simp only [List.length_cons] at hn ⊢
          omega
        have hs₂ : p = p₂ ∨ hasSub p (List.drop p₂.length (c :: s')) = false := by
          rcases hs with heq | hfs
          · exact Or.inl heq
          · refine Or.inr ?_
            by_contra hcon2
            rw [Bool.not_eq_false] at hcon2
            rw [hteq] at hcon2
            have : hasSub p (c :: s') = true := ht ▸ hasSub_append_right p₂ hcon2
            simp [this] at hfs
        rcases hasSub_append_cases p r₂ _ hcon with hr | hX | ⟨k, hk1, hk2, hsuf, hpre⟩
        · simp [hr] at h1
        · have := ih _ hslen hs₂
          simp [hX] at this
        · obtain ⟨hsp₂, hsp⟩ := h2 k hk1 hk2 hsuf
          have htrk : isPre (List.drop k p) (List.drop p₂.length (c :: s')) = true :=
            replaceAll_track p p₂ r₂ hp₂ h3 _ _ le_rfl k hk1 hk2 hpre
          rcases hs with heq | hfs
          · rw [← heq] at hsp₂
            simp [hsp] at hsp₂
          · obtain ⟨u, hu⟩ := (isSuf_iff _ p₂).1 hsp₂
            obtain ⟨v, hv⟩ := (isPre_iff _ _).1 htrk
            have htv : t = List.drop k p ++ v := hteq.symm.trans hv
            have hocc : hasSub p (c :: s') = true := by
              refine (hasSub_iff p (c :: s')).2 ⟨u, v, ?_⟩
              rw [ht, hu, htv]
              simp only [List.append_assoc]
              rw [← List.append_assoc (List.take k p) (List.drop k p) v,
                List.take_append_drop]
            simp [hocc] at hfs
      · rw [Bool.not_eq_true] at hm
        rw [replaceAll_neg p₂ r₂ c s' hp₂ hm]
        by_contra hcon
        rw [Bool.not_eq_false] at hcon
        have hs'len : s'.length ≤ n := by
          simp only [List.length_cons] at hn
          omega
        simp only [hasSub, Bool.or_eq_true] at hcon
        rcases hcon with hpp | hX
        · -- the pattern would have to start right here
          obtain ⟨d, p', rfl⟩ := List.exists_cons_of_ne_nil hp
          simp only [isPre, Bool.and_eq_true, beq_iff_eq] at hpp
          obtain ⟨hdc, hp'⟩ := hpp
          have hpre : isPre (d :: p') (c :: s') = true := by
            simp only [isPre, Bool.and_eq_true, beq_iff_eq]
            refine ⟨hdc, ?_⟩
            by_cases hp'nil : p' = []
            · simp [hp'nil, isPre]
            · have h1lt : 1 < (d :: p').length := by
                have := List.length_pos.mpr hp'nil
                simp only [List.length_cons]
                omega
              exact replaceAll_track (d :: p') p₂ r₂ hp₂ h3 s'.length s' le_rfl 1
                (le_refl 1) h1lt hp'
          rcases hs with heq | hfs
          · rw [heq] at hpre
            simp [hpre] at hm
          · have : hasSub (d :: p') (c :: s') = true := hasSub_of_isPre hpre
            simp [this] at hfs
        · have hs₂ : p = p₂ ∨ hasSub p s' = false := by
            rcases hs with heq | hfs
            · exact Or.inl heq
            · refine Or.inr ?_
              by_contra hcon2
              rw [Bool.not_eq_false] at hcon2
              have : hasSub p (c :: s') = true := hasSub_cons_of c hcon2
              simp [this] at hfs
          have := ih s' hs'len hs₂
          simp [hX] at this

/-- decidable bundle of the side conditions of `replaceAll_noResidue` for a
watched pattern `p`, a replaced pattern `p₂` and a replacement `r₂`:
`p` does not occur in `r₂`, no nonempty proper piece of `p` can be glued
together across a replacement boundary. -/
def wOK (p p₂ r₂ : List Char) : Bool :=
  !p.isEmpty && !p₂.isEmpty && !hasSub p r₂ &&
  ((List.range p.length).all fun k =>
    k == 0 ||
    ((!isSuf (List.take k p) r₂ ||
       (isSuf (List.take k p) p₂ && !isSuf (List.take k p) p)) &&
     !isPre (List.drop k p) r₂ && !isPre r₂ (List.drop k p)))

theorem replaceAll_wOK (p p₂ r₂ : List Char) (hc : wOK p p₂ r₂ = true) :
    ∀ s, (p = p₂ ∨ hasSub p s = false) → hasSub p (replaceAll p₂ r₂ s) = false := by
  intro s hs
  simp only [wOK, Bool.and_eq_true, Bool.not_eq_true', List.all_eq_true,
    List.mem_range] at hc
  obtain ⟨⟨⟨hpe, hp₂e⟩, h1⟩, hall⟩ := hc
  have hp : p ≠ [] := by rintro rfl; simp at hpe
  have hp₂ : p₂ ≠ [] := by rintro rfl; simp at hp₂e
  refine replaceAll_noResidue p p₂ r₂ hp hp₂ h1 ?_ ?_ s.length s le_rfl hs
  · intro k hk1 hk2 hsuf
    have h := hall k hk2
    have hk0 : (k == 0) = false := by
      simp only [beq_eq_false_iff_ne, ne_eq]
      omega
    rw [hk0, Bool.false_or] at h
    simp only [Bool.and_eq_true, Bool.or_eq_true, Bool.not_eq_true'] at h
    obtain ⟨⟨hA, _⟩, _⟩ := h
    rcases hA with hA | hA
    · rw [hsuf] at hA
      exact absurd hA (by simp)
    · exact hA
  · intro k hk1 hk2
    have h := hall k hk2
    have hk0 : (k == 0) = false := by
      simp only [beq_eq_false_iff_ne, ne_eq]
      omega
    rw [hk0, Bool.false_or] at h
    simp only [Bool.and_eq_true, Bool.or_eq_true, Bool.not_eq_true'] at h
    obtain ⟨⟨_, hB⟩, hC⟩ := h
    exact ⟨hB, hC⟩

/-- every rule of the list preserves the absence of `p`. -/
def presOK (p : List Char) (rs : List (List Char × List Char)) : Bool :=
  rs.all fun pr => wOK p pr.1 pr.2

/-- some rule of the list replaces `p` itself, and every later rule
preserves its absence. -/
def chainOK (p : List Char) : List (List Char × List Char) → Bool
  | [] => false
  | (q, r) :: rest => (p == q && wOK p q r && presOK p rest) || chainOK p rest

theorem applyReps_pres (p : List Char) :
    ∀ rs, presOK p rs = true →
      ∀ s, hasSub p s = false → hasSub p (applyReps rs s) = false := by
  intro rs
  induction rs with
  | nil => intro _ s hs; simpa [applyReps] using hs
  | cons pr rest ih =>
    intro h s hs
    simp only [presOK, List.all_cons, Bool.and_eq_true] at h
    obtain ⟨hw, hrest⟩ := h
    have h0 : hasSub p (replaceAll pr.1 pr.2 s) = false :=
      replaceAll_wOK p pr.1 pr.2 hw s (Or.inr hs)
    exact ih hrest _ h0

theorem applyReps_kill (p : List Char) :
    ∀ rs, chainOK p rs = true → ∀ s, hasSub p (applyReps rs s) = false := by
  intro rs
  induction rs with
  | nil => intro h; simp [chainOK] at h
  | cons pr rest ih =>
    intro h s
    obtain ⟨q, r⟩ := pr
    simp only [chainOK, Bool.or_eq_true, Bool.and_eq_true, beq_iff_eq] at h
    rcases h with ⟨⟨hpq, hw⟩, hpres⟩ | hrec
    · subst hpq
      have h0 : hasSub p (replaceAll p r s) = false :=
        replaceAll_wOK p p r hw s (Or.inl rfl)
      exact applyReps_pres p rest hpres _ h0
    · exact ih hrec (replaceAll q r s)

theorem replaceAll_id_of_no (p r : List Char) (hp : p ≠ []) :
    ∀ s, hasSub p s = false → replaceAll p r s = s := by
  intro s
  induction s with
  | nil => intro _; exact replaceAll_nil p r
  | cons c s' ih =>
    intro hs
    cases hpre : isPre p (c :: s') with
    | true => simp [hasSub, hpre] at hs
    | false =>
      have hs' : hasSub p s' = false := by
        simpa [hasSub, hpre] using hs
      rw [replaceAll_neg p r c s' hp hpre, ih hs']

theorem joinWith_cons (sep x : List Char) (parts : List (List Char))
    (h : parts ≠ []) :
    joinWith sep (x :: parts) = x ++ sep ++ joinWith sep parts := by
  cases parts with
  | nil => exact absurd rfl h
  | cons y ys => rfl

theorem joinWith_cons_head (sep : List Char) (c : Char) (q0 : List Char)
    (rest : List (List Char)) :
    joinWith sep ((c :: q0) :: rest) = c :: joinWith sep (q0 :: rest) := by
  cases rest <;> rfl

theorem joinWith_head_append (sep q0 : List Char) (rest : List (List Char)) :
    ∃ x, joinWith sep (q0 :: rest) = q0 ++ x := by
  cases rest with
  | nil => exact ⟨[], by simp [joinWith]⟩
  | cons y ys => exact ⟨sep ++ joinWith sep (y :: ys), by simp [joinWith]⟩

theorem replaceAll_decomp (p r : List Char) (hp : p ≠ []) :
    ∀ n s, s.length ≤ n →
      ∃ parts : List (List Char), parts ≠ [] ∧
        (∀ q ∈ parts, hasSub p q = false) ∧
        s = joinWith p parts ∧
        replaceAll p r s = joinWith r parts := by
  intro n
  induction n with
  | zero =>
    intro s hn
    have hs : s = [] := List.eq_nil_of_length_eq_zero (Nat.le_zero.mp hn)
    subst hs
    refine ⟨[[]], by simp, ?_, rfl, by rw [replaceAll_nil]; rfl⟩
    intro q hq
    simp only [List.mem_singleton] at hq
    subst hq
    exact hasSub_nil_false hp
  | succ n ih =>
    intro s hn
    cases s with
    | nil =>
      refine ⟨[[]], by simp, ?_, rfl, by rw [replaceAll_nil]; rfl⟩
      intro q hq
      simp only [List.mem_singleton] at hq
      subst hq
      exact hasSub_nil_false hp
    | cons c s' =>
      by_cases hm : isPre p (c :: s') = true
      · obtain ⟨t, ht⟩ := (isPre_iff p (c :: s')).1 hm
        have hteq : List.drop p.length (c :: s') = t := by
          rw [ht, List.drop_left]
        have hlen : t.length ≤ n := by
          have hl := congrArg List.length ht
          rw [List.length_append] at hl
          have hlp : 0 < p.length := List.length_pos.mpr hp
          simp only [List.length_cons] at hl hn
          omega
        obtain ⟨parts, hne, hsub, hjoin, hrep⟩ := ih t hlen
        refine ⟨[] :: parts, by simp, ?_, ?_, ?_⟩
        · intro q hq
          rcases List.mem_cons.mp hq with rfl | hq
          · exact hasSub_nil_false hp
          · exact hsub q hq
        · rw [joinWith_cons p [] parts hne, List.nil_append, ← hjoin, ht]
        · rw [replaceAll_pos p r c s' hp hm, hteq, hrep,
            joinWith_cons r [] parts hne, List.nil_append]
      · rw [Bool.not_eq_true] at hm
        have hs'len : s'.length ≤ n := by
          simp only [List.length_cons] at hn
          omega
        obtain ⟨parts, hne, hsub, hjoin, hrep⟩ := ih s' hs'len
        cases parts with
        | nil => exact absurd rfl hne
        | cons q0 rest =>
          refine ⟨(c :: q0) :: rest, by simp, ?_, ?_, ?_⟩
          · intro q hq
            rcases List.mem_cons.mp hq with rfl | hq
            · have hq0 : hasSub p q0 = false := hsub q0 (List.mem_cons_self q0 rest)
              have hpre0 : isPre p (c :: q0) = false := by
                cases hpc : isPre p (c :: q0) with
                | false => rfl
                | true =>
                  obtain ⟨x, hx⟩ := joinWith_head_append p q0 rest
                  have : isPre p ((c :: q0) ++ x) = true := isPre_append_of x hpc
                  have hceq : (c :: q0) ++ x = c :: s' := by
                    rw [hjoin, hx]
                    rfl
                  rw [hceq] at this
                  simp [this] at hm
              simp [hasSub, hpre0, hq0]
            · exact hsub q (List.mem_cons_of_mem q0 hq)
          · rw [joinWith_cons_head, ← hjoin]
          · rw [replaceAll_neg p r c s' hp hm, joinWith_cons_head, ← hrep]

/-- one entry of the `CLASSES` table of `customize_scripts.py`: fields
`name`, `config_key`, `endpoint_base`, `id_field`.  The static
`scenarios` sub-dictionary of the cart entry is never read by
`customize_script` and is omitted. -/
structure ScriptsConfig where
  name : List Char
  config_key : List Char
  endpoint_base : List Char
  id_field : List Char
deriving DecidableEq

def cartScripts : ScriptsConfig :=
  ⟨str "Cart", str "cart", str "/cart", str "cartId"⟩

def wishlistScripts : ScriptsConfig :=
  ⟨str "Wishlist", str "wishlist", str "/wishlist", str "wishlistId"⟩

def couponScripts : ScriptsConfig :=
  ⟨str "Coupon", str "coupon", str "/coupon", str "couponId"⟩

def subscriptionsScripts : ScriptsConfig :=
  ⟨str "Subscriptions", str "subscriptions", str "/subscriptions", str "subscriptionId"⟩

def transactionsScripts : ScriptsConfig :=
  ⟨str "Transactions", str "transactions", str "/transactions", str "transactionId"⟩

def gateway1Scripts : ScriptsConfig :=
  ⟨str "Gateway 1", str "gateway-1", str "/gateway-1", str "gatewayId"⟩

def gateway2Scripts : ScriptsConfig :=
  ⟨str "Gateway 2", str "gateway-2", str "/gateway-2", str "gatewayId"⟩

def mediaScripts : ScriptsConfig :=
  ⟨str "Media", str "media", str "/media", str "mediaId"⟩

def productsScripts : ScriptsConfig :=
  ⟨str "Products", str "products", str "/products", str "productId"⟩

def ordersScripts : ScriptsConfig :=
  ⟨str "Orders", str "orders", str "/orders", str "orderId"⟩

/-- the `CLASSES` table of `customize_scripts.py` (lines 9 to 76), in
source order. -/
def CLASSES_scripts : List (List Char × ScriptsConfig) :=
  [(str "cart", cartScripts),
   (str "wishlist", wishlistScripts),
   (str "coupon", couponScripts),
   (str "subscriptions", subscriptionsScripts),
   (str "transactions", transactionsScripts),
   (str "gateway-1", gateway1Scripts),
   (str "gateway-2", gateway2Scripts),
   (str "media", mediaScripts),
   (str "products", productsScripts),
   (str "orders", ordersScripts)]

/-- the `replacements` list of `customize_scripts.py` (lines 87 to 95),
in source order. -/
def scriptsReps (config : ScriptsConfig) : List (List Char × List Char) :=
  [(str "Demo Class", config.name ++ str " Class"),
   (str "demo functionality", lowerStr config.name ++ str " functionality"),
   (str "demo", config.config_key),
   (str "Demo", config.name),
   (str "/demo", config.endpoint_base),
   (str "EdgeTestsDemo", str "EdgeTests" ++ removeSpaces config.name),
   (str "[Edge Tests Demo]", str "[Edge Tests " ++ config.name ++ str "]")]

/-- the two `re.sub` literal substitutions of `customize_scripts.py`
(lines 102 to 103), applied only when `id_field` is not `userId`. -/
def idReps (config : ScriptsConfig) : List (List Char × List Char) :=
  [(str "inputValues.userId", str "inputValues." ++ config.id_field),
   (str "\x7buserId\x7d", str "\x7b" ++ config.id_field ++ str "\x7d")]

/-- the content transformation of `customize_script` in
`customize_scripts.py` (lines 78 to 108): the replacement loop, then the
conditional identifier-field substitutions. -/
def customize_script (config : ScriptsConfig) (content : List Char) : List Char :=
  let content := applyReps (scriptsReps config) content
  if config.id_field ≠ str "userId" then applyReps (idReps config) content
  else content

def scriptsDemoPath : List Char := str "page/developer/edge-tests-demo/script.js"

def scriptsTarget (key : List Char) : List Char :=
  str "page/developer/edge-tests-" ++ key ++ str "/script.js"

/-- the files written by one run of `customize_scripts.py`
(`__main__`, lines 110 to 112), as target-path and content pairs, as a
function of the demo `script.js` content. -/
def scripts_outputs (demo : List Char) : List (List Char × List Char) :=
  CLASSES_scripts.map fun e => (scriptsTarget e.1, customize_script e.2 demo)

/-- one entry of the `CLASSES` table of `customize_all.py`: fields
`name`, `item`, `items`. -/
structure AllConfig where
  name : List Char
  item : List Char
  items : List Char
deriving DecidableEq

def cartAll : AllConfig := ⟨str "Cart", str "Cart Item", str "cart items"⟩

def wishlistAll : AllConfig := ⟨str "Wishlist", str "Wishlist Item", str "wishlist items"⟩

def couponAll : AllConfig := ⟨str "Coupon", str "Coupon", str "coupons"⟩

def subscriptionsAll : AllConfig := ⟨str "Subscriptions", str "Subscription", str "subscriptions"⟩

def transactionsAll : AllConfig := ⟨str "Transactions", str "Transaction", str "transactions"⟩

def gateway1All : AllConfig := ⟨str "Gateway 1", str "Gateway 1 Item", str "gateway 1 items"⟩

def gateway2All : AllConfig := ⟨str "Gateway 2", str "Gateway 2 Item", str "gateway 2 items"⟩

def mediaAll : AllConfig := ⟨str "Media", str "Media Item", str "media items"⟩

def productsAll : AllConfig := ⟨str "Products", str "Product", str "products"⟩

def ordersAll : AllConfig := ⟨str "Orders", str "Order", str "orders"⟩

/-- the `CLASSES` table of `customize_all.py` (lines 6 to 17), in source
order. -/
def CLASSES_all : List (List Char × AllConfig) :=
  [(str "cart", cartAll),
   (str "wishlist", wishlistAll),
   (str "coupon", couponAll),
   (str "subscriptions", subscriptionsAll),
   (str "transactions", transactionsAll),
   (str "gateway-1", gateway1All),
   (str "gateway-2", gateway2All),
   (str "media", mediaAll),
   (str "products", productsAll),
   (str "orders", ordersAll)]

/-- the nine sequential `content.replace` calls of `customize_file` in
`customize_all.py` (lines 29 to 37), in source order. -/
def allReps (class_key : List Char) (config : AllConfig) : List (List Char × List Char) :=
  [(str "Demo Class", config.name ++ str " Class"),
   (str "\"demo\"", str "\"" ++ class_key ++ str "\""),
   (str "/demo", str "/" ++ class_key),
   (str "EdgeTestsDemo", str "EdgeTests" ++ removeSpaces config.name),
   (str "[Edge Tests Demo]", str "[Edge Tests " ++ config.name ++ str "]"),
   (str "Demo Item", config.item),
   (str "demo item", lowerStr config.item),
   (str "demo items", config.items),
   (str "Demo Items", pyTitle config.items)]

/-- the content transformation of `customize_file` in `customize_all.py`
(lines 19 to 41). -/
def customize_file (class_key : List Char) (config : AllConfig) (content : List Char) : List Char :=
  applyReps (allReps class_key config) content

def allDemoPath : List Char := str "edge-tests-demo/script.js"

def allTarget (key : List Char) : List Char :=
  str "edge-tests-" ++ key ++ str "/script.js"

/-- the files written by one run of `customize_all.py` (lines 43 to 45),
relative to its base directory. -/
def all_outputs (demo : List Char) : List (List Char × List Char) :=
  CLASSES_all.map fun e => (allTarget e.1, customize_file e.1 e.2 demo)

/-- one entry of the `CLASSES` table of `fix_all_pages.py`: fields
`name`, `item`, `items`, `id_field`. -/
structure FixConfig where
  name : List Char
  item : List Char
  items : List Char
  id_field : List Char
deriving DecidableEq

def wishlistFix : FixConfig :=
  ⟨str "Wishlist", str "Wishlist Item", str "wishlist items", str "wishlistId"⟩

def couponFix : FixConfig :=
  ⟨str "Coupon", str "Coupon", str "coupons", str "couponId"⟩

def subscriptionsFix : FixConfig :=
  ⟨str "Subscriptions", str "Subscription", str "subscriptions", str "subscriptionId"⟩

def transactionsFix : FixConfig :=
  ⟨str "Transactions", str "Transaction", str "transactions", str "transactionId"⟩

def gateway1Fix : FixConfig :=
  ⟨str "Gateway 1", str "Gateway 1 Item", str "gateway 1 items", str "gatewayId"⟩

def gateway2Fix : FixConfig :=
  ⟨str "Gateway 2", str "Gateway 2 Item", str "gateway 2 items", str "gatewayId"⟩

def mediaFix : FixConfig :=
  ⟨str "Media", str "Media Item", str "media items", str "mediaId"⟩

def productsFix : FixConfig :=
  ⟨str "Products", str "Product", str "products", str "productId"⟩

def ordersFix : FixConfig :=
  ⟨str "Orders", str "Order", str "orders", str "orderId"⟩

/-- the `CLASSES` table of `fix_all_pages.py` (lines 9 to 19), in source
order.  It has nine entries: there is no `cart` entry. -/
def CLASSES_fix : List (List Char × FixConfig) :=
  [(str "wishlist", wishlistFix),
   (str "coupon", couponFix),
   (str "subscriptions", subscriptionsFix),
   (str "transactions", transactionsFix),
   (str "gateway-1", gateway1Fix),
   (str "gateway-2", gateway2Fix),
   (str "media", mediaFix),
   (str "products", productsFix),
   (str "orders", ordersFix)]

/-- the `replacements` list of `customize_script` in `fix_all_pages.py`
(lines 29 to 42), in source order. -/
def fixReps (class_key : List Char) (config : FixConfig) : List (List Char × List Char) :=
  [(str "Demo Class", config.name ++ str " Class"),
   (str "demo/template", lowerStr config.name ++ str " functionality"),
   (str "\"demo\"", str "\"" ++ class_key ++ str "\""),
   (squo (str "demo"), squo class_key),
   (str "/demo", str "/" ++ class_key),
   (str "EdgeTestsDemo", str "EdgeTests" ++ removeSpaces config.name),
   (str "[Edge Tests Demo]", str "[Edge Tests " ++ config.name ++ str "]"),
   (str "Demo Item", config.item),
   (str "demo item", lowerStr config.item),
   (str "demo items", config.items),
   (str "Demo Items", pyTitle config.items),
   (str "\x7buserId\x7d", str "\x7b" ++ config.id_field ++ str "\x7d")]

/-- the two conditional `content.replace` calls of `customize_script` in
`fix_all_pages.py` (lines 49 to 50), applied only when `id_field` is not
`userId`. -/
def fixIdReps (config : FixConfig) : List (List Char × List Char) :=
  [(str "inputValues.userId", str "inputValues." ++ config.id_field),
   (squo (str "userId"), squo config.id_field)]

/-- the content transformation of `customize_script` in
`fix_all_pages.py` (lines 21 to 54). -/
def fix_customize_script (class_key : List Char) (config : FixConfig) (content : List Char) : List Char :=
  let content := applyReps (fixReps class_key config) content
  if config.id_field ≠ str "userId" then applyReps (fixIdReps config) content
  else content

/-- the content transformation of `copy_style` in `fix_all_pages.py`
(lines 56 to 68): a single replacement of the header comment literal. -/
def copy_style (config : FixConfig) (content : List Char) : List Char :=
  replaceAll (str "Demo Class (Template)") (config.name ++ str " Class") content

def fixDemoScript : List Char := str "edge-tests-demo/script.js"

def fixDemoStyle : List Char := str "edge-tests-demo/style.css"

def fixScriptTarget (key : List Char) : List Char :=
  str "edge-tests-" ++ key ++ str "/script.js"

def fixStyleTarget (key : List Char) : List Char :=
  str "edge-tests-" ++ key ++ str "/style.css"

/-- the files written by one run of `fix_all_pages.py` (`__main__`,
lines 70 to 75): per table entry a `script.js` then a `style.css`,
relative to its base directory. -/
def fix_all_outputs (demoScript demoStyle : List Char) : List (List Char × List Char) :=
  (CLASSES_fix.map fun e =>
    [(fixScriptTarget e.1, fix_customize_script e.1 e.2 demoScript),
     (fixStyleTarget e.1, copy_style e.2 demoStyle)]).flatten

/-- a file system: a map from paths to optional file contents.  Reading
is function application; a missing file is `none`, which in the scripts
makes `open` raise and abort the run. -/
def FS : Type := List Char → Option (List Char)

def emptyFS : FS := fun _ => none

def writeFS (fs : FS) (p v : List Char) : FS :=
  fun q => if q = p then some v else fs q

/-- the run of `customize_scripts.py` over a file system: for each table
entry, read the demo script (abort on the uncaught file-not-found error
if it is absent) and write the customized target. -/
def goScripts : List (List Char × ScriptsConfig) → FS → FS × Option (List Char)
  | [], fs => (fs, none)
  | e :: rest, fs =>
    match fs scriptsDemoPath with
    | none => (fs, some (str "SourceMissing"))
    | some d => goScripts rest (writeFS fs (scriptsTarget e.1) (customize_script e.2 d))

def runScriptsFS (fs : FS) : FS × Option (List Char) := goScripts CLASSES_scripts fs

/-- the run of `customize_all.py` over a file system. -/
def goAll : List (List Char × AllConfig) → FS → FS × Option (List Char)
  | [], fs => (fs, none)
  | e :: rest, fs =>
    match fs allDemoPath with
    | none => (fs, some (str "SourceMissing"))
    | some d => goAll rest (writeFS fs (allTarget e.1) (customize_file e.1 e.2 d))

def runAllFS (fs : FS) : FS × Option (List Char) := goAll CLASSES_all fs

/-- the run of `fix_all_pages.py` over a file system: for each table
entry, `customize_script` (read demo script, write target script) and
then `copy_style` (read demo style, write target style); an absent
source aborts at the point it is first opened, keeping every write made
so far. -/
def goFix : List (List Char × FixConfig) → FS → FS × Option (List Char)
  | [], fs => (fs, none)
  | e :: rest, fs =>
    match fs fixDemoScript with
    | none => (fs, some (str "SourceMissing"))
    | some d =>
      let fs1 := writeFS fs (fixScriptTarget e.1) (fix_customize_script e.1 e.2 d)
      match fs1 fixDemoStyle with
      | none => (fs1, some (str "SourceMissing"))
      | some c => goFix rest (writeFS fs1 (fixStyleTarget e.1) (copy_style e.2 c))

def runFixFS (fs : FS) : FS × Option (List Char) := goFix CLASSES_fix fs

theorem writeFS_eq_self (fs : FS) (p v : List Char) (h : fs p = some v) :
    writeFS fs p v = fs := by
  funext q
  unfold writeFS
  by_cases hq : q = p
  · subst hq
    rw [if_pos rfl, h]
  · rw [if_neg hq]

theorem writeFS_other (fs : FS) (p v q : List Char) (h : q ≠ p) :
    writeFS fs p v q = fs q := by
  unfold writeFS
  rw [if_neg h]

theorem writeFS_same (fs : FS) (p v : List Char) : writeFS fs p v p = some v := by
  unfold writeFS
  rw [if_pos rfl]

theorem goScripts_pres :
    ∀ entries (fs : FS) q, (∀ e ∈ entries, scriptsTarget e.1 ≠ q) →
      (goScripts entries fs).1 q = fs q := by
  intro entries
  induction entries with
  | nil => intro fs q _; rfl
  | cons e rest ih =>
    intro fs q h
    cases hd : fs scriptsDemoPath with
    | none => simp [goScripts, hd]
    | some d =>
      simp only [goScripts, hd]
      rw [ih _ q fun e' he' => h e' (List.mem_cons_of_mem e he')]
      exact writeFS_other fs _ _ q (h e (List.mem_cons_self e rest)).symm

theorem goScripts_err (entries : List (List Char × ScriptsConfig)) (fs : FS)
    (hne : entries ≠ []) (hd : fs scriptsDemoPath = none) :
    goScripts entries fs = (fs, some (str "SourceMissing")) := by
  cases entries with
  | nil => exact absurd rfl hne
  | cons e rest => simp [goScripts, hd]

theorem goScripts_ok :
    ∀ entries (fs : FS) d, fs scriptsDemoPath = some d →
      (∀ e ∈ entries, scriptsTarget e.1 ≠ scriptsDemoPath) →
      (goScripts entries fs).2 = none := by
  intro entries
  induction entries with
  | nil => intro fs d _ _; rfl
  | cons e rest ih =>
    intro fs d hd h
    simp only [goScripts, hd]
    have hd' : (writeFS fs (scriptsTarget e.1) (customize_script e.2 d)) scriptsDemoPath
        = some d := by
      rw [writeFS_other fs _ _ _ (h e (List.mem_cons_self e rest)).symm]
      exact hd
    exact ih _ d hd' fun e' he' => h e' (List.mem_cons_of_mem e he')

theorem goScripts_writes :
    ∀ entries (fs : FS) d, fs scriptsDemoPath = some d →
      (∀ e ∈ entries, scriptsTarget e.1 ≠ scriptsDemoPath) →
      (List.map (fun e => scriptsTarget e.1) entries).Nodup →
      ∀ e ∈ entries,
        (goScripts entries fs).1 (scriptsTarget e.1) = some (customize_script e.2 d) := by
  intro entries
  induction entries with
  | nil => intro fs d _ _ _ e he; simp at he
  | cons e0 rest ih =>
    intro fs d hd hne hnd e he
    have hd' : (writeFS fs (scriptsTarget e0.1) (customize_script e0.2 d)) scriptsDemoPath
        = some d := by
      rw [writeFS_other fs _ _ _ (hne e0 (List.mem_cons_self e0 rest)).symm]
      exact hd
    simp only [List.map_cons, List.nodup_cons, List.mem_map] at hnd
    obtain ⟨hnotin, hnd'⟩ := hnd
    simp only [goScripts, hd]
    rcases List.mem_cons.mp he with rfl | he'
    · rw [goScripts_pres rest _ (scriptsTarget e.1) ?_]
      · exact writeFS_same fs _ _
      · intro e' he' heq
        exact hnotin ⟨e', he', heq⟩
    · exact ih _ d hd' (fun e' he'' => hne e' (List.mem_cons_of_mem e0 he'')) hnd' e he'

theorem goScripts_stable :
    ∀ entries (fs : FS) d, fs scriptsDemoPath = some d →
      (∀ e ∈ entries, fs (scriptsTarget e.1) = some (customize_script e.2 d)) →
      goScripts entries fs = (fs, none) := by
  intro entries
  induction entries with
  | nil => intro fs d _ _; rfl
  | cons e0 rest ih =>
    intro fs d hd hw
    simp only [goScripts, hd]
    rw [writeFS_eq_self fs _ _ (hw e0 (List.mem_cons_self e0 rest))]
    exact ih fs d hd fun e he => hw e (List.mem_cons_of_mem e0 he)

theorem customize_script_no (p : List Char) (config : ScriptsConfig)
    (h1 : chainOK p (scriptsReps config) = true)
    (h2 : presOK p (idReps config) = true) :
    ∀ s, hasSub p (customize_script config s) = false := by
  intro s
  show hasSub p (if config.id_field ≠ str "userId"
      then applyReps (idReps config) (applyReps (scriptsReps config) s)
      else applyReps (scriptsReps config) s) = false
  by_cases hid : config.id_field ≠ str "userId"
  · rw [if_pos hid]
    exact applyReps_pres p _ h2 _ (applyReps_kill p _ h1 s)
  · rw [if_neg hid]
    exact applyReps_kill p _ h1 s

theorem customize_script_no_id (p : List Char) (config : ScriptsConfig)
    (hne : config.id_field ≠ str "userId")
    (h : chainOK p (idReps config) = true) :
    ∀ s, hasSub p (customize_script config s) = false := by
  intro s
  show hasSub p (if config.id_field ≠ str "userId"
      then applyReps (idReps config) (applyReps (scriptsReps config) s)
      else applyReps (scriptsReps config) s) = false
  rw [if_pos hne]
  exact applyReps_kill p _ h _

/-- Claim C1: for the entity configuration with key cart (displayName
Cart, idField cartId), on the demo script content
`const title = "Demo Class"; const endpoint = "/demo"; inputValues.userId;`
the customizer of `customize_scripts.py` writes to
`page/developer/edge-tests-cart/script.js` a content that contains
`const title = "Cart Class"; const endpoint = "/cart"; inputValues.cartId;`
(the output is in fact exactly that text). -/
theorem claim_C1 :
    (str "page/developer/edge-tests-cart/script.js",
      str "const title = \"Cart Class\"; const endpoint = \"/cart\"; inputValues.cartId;")
      ∈ scripts_outputs
        (str "const title = \"Demo Class\"; const endpoint = \"/demo\"; inputValues.userId;") ∧
    hasSub (str "const title = \"Cart Class\"; const endpoint = \"/cart\"; inputValues.cartId;")
      (customize_script cartScripts
        (str "const title = \"Demo Class\"; const endpoint = \"/demo\"; inputValues.userId;"))
      = true := by
  decide

/-- Claim C2 counterexample: `customize_scripts.py` does not rewrite
quoted occurrences of the default field name: for the cart entry
(idField cartId, different from the default) the text
`const f = "userId";` is returned unchanged, so a quoted occurrence of
the default field remains in the output. -/
theorem claim_C2_counterexample :
    customize_script cartScripts (str "const f = \"userId\";")
      = str "const f = \"userId\";" ∧
    hasSub (str "\"userId\"")
      (customize_script cartScripts (str "const f = \"userId\";")) = true := by
  decide

/-- Claim C2 amended: in `customize_scripts.py` only the placeholder
property access `inputValues.userId` and the path token with the default
field between braces are rewritten, and only when idField differs from
the default: when idField equals `userId` the identifier-field phase
leaves the text unchanged, and for every entry of the static table (all
of which have a non-default idField) zero occurrences of those two
placeholder forms remain in the output, for every source text.  Quoted
occurrences of the default field name are not rewritten by this script
(`fix_all_pages.py` rewrites single-quoted ones only). -/
theorem claim_C2_amended :
    (∀ (config : ScriptsConfig) (s : List Char), config.id_field = str "userId" →
      customize_script config s = applyReps (scriptsReps config) s) ∧
    (∀ e ∈ CLASSES_scripts, ∀ s : List Char,
      hasSub (str "inputValues.userId") (customize_script e.2 s) = false ∧
      hasSub (str "\x7buserId\x7d") (customize_script e.2 s) = false) := by
  constructor
  · intro config s h
    show (if config.id_field ≠ str "userId"
        then applyReps (idReps config) (applyReps (scriptsReps config) s)
        else applyReps (scriptsReps config) s) = applyReps (scriptsReps config) s
    rw [if_neg fun hne => hne h]
  · intro e he s
    fin_cases he <;>
      exact ⟨customize_script_no_id _ _ (by decide) (by decide) s,
        customize_script_no_id _ _ (by decide) (by decide) s⟩

/-- Claim C2 witness: the amended claim at the cart entry on a concrete
text consisting of the placeholder itself. -/
theorem claim_C2_witness :
    hasSub (str "inputValues.userId")
      (customize_script cartScripts (str "inputValues.userId;")) = false :=
  (claim_C2_amended.2 (str "cart", cartScripts) (by decide) (str "inputValues.userId;")).1

/-- Claim C3 counterexample: the key cart is absent from the static
table of `fix_all_pages.py`, the only script that writes both a
`script.js` and a `style.css`; consequently no run of it produces the
two files for cart. -/
theorem claim_C3_counterexample :
    (CLASSES_fix.map Prod.fst).contains (str "cart") = false ∧
    ((fix_all_outputs (str "body js") (str "body css")).map Prod.fst).contains
      (str "edge-tests-cart/script.js") = false ∧
    ((fix_all_outputs (str "body js") (str "body css")).map Prod.fst).contains
      (str "edge-tests-cart/style.css") = false := by
  decide

/-- Claim C3 amended: for each of the nine keys of the table of
`fix_all_pages.py` (wishlist, coupon, subscriptions, transactions,
gateway-1, gateway-2, media, products, orders) one run produces exactly
two output files, at `edge-tests-KEY/script.js` and
`edge-tests-KEY/style.css`; cart is absent from that table.  The two
scripts whose tables do contain cart (`customize_scripts.py` and
`customize_all.py`) write exactly one `script.js` per key and no
`style.css`. -/
theorem claim_C3_amended :
    ∀ demoScript demoStyle : List Char,
      (fix_all_outputs demoScript demoStyle).map Prod.fst =
        [str "edge-tests-wishlist/script.js", str "edge-tests-wishlist/style.css",
         str "edge-tests-coupon/script.js", str "edge-tests-coupon/style.css",
         str "edge-tests-subscriptions/script.js", str "edge-tests-subscriptions/style.css",
         str "edge-tests-transactions/script.js", str "edge-tests-transactions/style.css",
         str "edge-tests-gateway-1/script.js", str "edge-tests-gateway-1/style.css",
         str "edge-tests-gateway-2/script.js", str "edge-tests-gateway-2/style.css",
         str "edge-tests-media/script.js", str "edge-tests-media/style.css",
         str "edge-tests-products/script.js", str "edge-tests-products/style.css",
         str "edge-tests-orders/script.js", str "edge-tests-orders/style.css"] ∧
      (scripts_outputs demoScript).map Prod.fst =
        [str "page/developer/edge-tests-cart/script.js",
         str "page/developer/edge-tests-wishlist/script.js",
         str "page/developer/edge-tests-coupon/script.js",
         str "page/developer/edge-tests-subscriptions/script.js",
         str "page/developer/edge-tests-transactions/script.js",
         str "page/developer/edge-tests-gateway-1/script.js",
         str "page/developer/edge-tests-gateway-2/script.js",
         str "page/developer/edge-tests-media/script.js",
         str "page/developer/edge-tests-products/script.js",
         str "page/developer/edge-tests-orders/script.js"] ∧
      (all_outputs demoScript).map Prod.fst =
        [str "edge-tests-cart/script.js",
         str "edge-tests-wishlist/script.js",
         str "edge-tests-coupon/script.js",
         str "edge-tests-subscriptions/script.js",
         str "edge-tests-transactions/script.js",
         str "edge-tests-gateway-1/script.js",
         str "edge-tests-gateway-2/script.js",
         str "edge-tests-media/script.js",
         str "edge-tests-products/script.js",
         str "edge-tests-orders/script.js"] := by
  intro demoScript demoStyle
  exact ⟨rfl, rfl, rfl⟩

/-- Claim C4 counterexample: in `customize_scripts.py` the bare token
rule Demo to displayName is applied before the EdgeTestsDemo rule, so
for the entity gateway-1 (displayName Gateway 1, which contains a
space) the identifier literal EdgeTestsDemo is not rewritten to
EdgeTestsGateway1. -/
theorem claim_C4_counterexample :
    customize_script gateway1Scripts (str "EdgeTestsDemo") ≠ str "EdgeTestsGateway1" := by
  decide

/-- Claim C4 amended: in `customize_scripts.py` the bare catch-all
tokens demo and Demo are the third and fourth rules of seven, applied
before the /demo, EdgeTestsDemo and bracketed-label rules; an
occurrence of EdgeTestsDemo is therefore consumed by the Demo rule and
becomes EdgeTests followed by the displayName with its spaces kept
(EdgeTestsGateway 1 for Gateway 1; for space-free names such as Cart
the result coincides with the claimed EdgeTestsCart).  In
`customize_all.py` and `fix_all_pages.py`, whose rule lists apply
EdgeTestsDemo before any bare token, EdgeTestsDemo is rewritten to
EdgeTests followed by the displayName with spaces removed. -/
theorem claim_C4_amended :
    customize_script gateway1Scripts (str "EdgeTestsDemo") = str "EdgeTestsGateway 1" ∧
    customize_script cartScripts (str "EdgeTestsDemo") = str "EdgeTestsCart" ∧
    customize_file (str "gateway-1") gateway1All (str "EdgeTestsDemo")
      = str "EdgeTestsGateway1" ∧
    fix_customize_script (str "gateway-1") gateway1Fix (str "EdgeTestsDemo")
      = str "EdgeTestsGateway1" := by
  decide

/-- Claim C5 counterexample: occurrences of the token demo in other
casings (DEMO) are never rewritten by any of the three scripts; bare
demo tokens outside the patterned contexts survive `customize_all.py`
and `fix_all_pages.py` unchanged; and in `customize_scripts.py` a
replacement can even recreate demo across a boundary (demdemo becomes
demorders for the orders entry).  Each listed output still contains a
case-insensitive occurrence of demo. -/
theorem claim_C5_counterexample :
    customize_script cartScripts (str "DEMO MODE") = str "DEMO MODE" ∧
    customize_file (str "cart") cartAll (str "demoData = 1") = str "demoData = 1" ∧
    fix_customize_script (str "wishlist") wishlistFix (str "demoData = 1")
      = str "demoData = 1" ∧
    customize_script ordersScripts (str "demdemo") = str "demorders" ∧
    hasSub (str "demo") (lowerStr (str "DEMO MODE")) = true ∧
    hasSub (str "demo") (str "demoData = 1") = true ∧
    hasSub (str "demo") (str "demorders") = true := by
  decide

/-- Claim C5 amended: what does hold of `customize_scripts.py` is
case-sensitive elimination of the exact tokens: for every entry of its
table and every source text, no occurrence of Demo remains in the
output, and no occurrence of demo remains for every entry except
orders (whose key orders begins with the letter o, allowing the
replacement to recreate demo across a boundary).  Other casings such as
DEMO are never rewritten, and the other two scripts replace only
contextual patterns, so bare demo tokens may survive them. -/
theorem claim_C5_amended :
    (∀ e ∈ CLASSES_scripts, ∀ s : List Char,
      hasSub (str "Demo") (customize_script e.2 s) = false) ∧
    (∀ e ∈ CLASSES_scripts, e.1 ≠ str "orders" → ∀ s : List Char,
      hasSub (str "demo") (customize_script e.2 s) = false) := by
  constructor
  · intro e he s
    fin_cases he <;> exact customize_script_no _ _ (by decide) (by decide) s
  · intro e he hne s
    fin_cases he <;>
      first
        | exact customize_script_no _ _ (by decide) (by decide) s
        | exact absurd rfl hne

/-- Claim C5 witness: the amended claim at the orders entry (for Demo)
and the cart entry (for demo) on concrete texts containing the
tokens. -/
theorem claim_C5_witness :
    hasSub (str "Demo") (customize_script ordersScripts (str "Demo Class page")) = false ∧
    hasSub (str "demo") (customize_script cartScripts (str "the demo page")) = false := by
  constructor
  · exact claim_C5_amended.1 (str "orders", ordersScripts) (by decide) _
  · exact claim_C5_amended.2 (str "cart", cartScripts) (by decide) (by decide) _

/-- Claim C6: for every entity configuration and every demo stylesheet
content, `copy_style` of `fix_all_pages.py` produces the content with
every occurrence of `Demo Class (Template)` replaced by the displayName
followed by ` Class`, and with no other change: a content without the
literal is copied verbatim, and in general the content splits into
fragments free of the literal, joined by the literal, such that the
output is exactly the same fragments joined by the replacement. -/
theorem claim_C6 :
    ∀ (config : FixConfig) (content : List Char),
      (hasSub (str "Demo Class (Template)") content = false →
        copy_style config content = content) ∧
      ∃ parts : List (List Char), parts ≠ [] ∧
        (∀ q ∈ parts, hasSub (str "Demo Class (Template)") q = false) ∧
        content = joinWith (str "Demo Class (Template)") parts ∧
        copy_style config content = joinWith (config.name ++ str " Class") parts := by
  intro config content
  constructor
  · intro h
    exact replaceAll_id_of_no _ _ (by decide) content h
  · exact replaceAll_decomp _ _ (by decide) content.length content le_rfl

/-- Claim C6 witness: a stylesheet without the header literal is copied
verbatim. -/
theorem claim_C6_witness :
    copy_style wishlistFix (str "body: color red") = str "body: color red" :=
  (claim_C6 wishlistFix (str "body: color red")).1 (by decide)

/-- Claim C7 counterexample: not every occurrence of `Demo Items` is
mapped to the title-cased itemsLabel: for the coupon entry of
`customize_all.py` (and likewise `fix_all_pages.py`) the source
`EdgeTestsDemo Items` contains an occurrence of `Demo Items`, yet the
output is `EdgeTestsCoupon Items` — the occurrence was consumed by the
earlier EdgeTestsDemo rule and the title-cased itemsLabel `Coupons`
appears nowhere in the output. -/
theorem claim_C7_counterexample :
    hasSub (str "Demo Items") (str "EdgeTestsDemo Items") = true ∧
    customize_file (str "coupon") couponAll (str "EdgeTestsDemo Items")
      = str "EdgeTestsCoupon Items" ∧
    fix_customize_script (str "coupon") couponFix (str "EdgeTestsDemo Items")
      = str "EdgeTestsCoupon Items" ∧
    pyTitle couponAll.items = str "Coupons" ∧
    hasSub (str "Coupons") (str "EdgeTestsCoupon Items") = false := by
  decide

/-- Claim C7 amended: for every entry of the tables of
`customize_all.py` and `fix_all_pages.py`, a standalone occurrence of
`demo items` is mapped to the itemsLabel and a standalone occurrence of
`Demo Items` to the title-cased itemsLabel — both for the bare phrase
and for the phrase inside neutral context.  (In the code the singular
rules `demo item` and `Demo Item` fire first and append the trailing s,
but for every configured entry the result coincides with the label,
respectively its title case.)  An occurrence that overlaps an earlier
pattern of the rule list, such as the one inside `EdgeTestsDemo Items`,
is consumed by that earlier rule instead and is not so mapped. -/
theorem claim_C7_amended :
    (CLASSES_all.all fun e =>
      customize_file e.1 e.2 (str "demo items") == e.2.items &&
      customize_file e.1 e.2 (str "Demo Items") == pyTitle e.2.items &&
      customize_file e.1 e.2 (str "x demo items y") == str "x " ++ e.2.items ++ str " y" &&
      customize_file e.1 e.2 (str "x Demo Items y")
        == str "x " ++ pyTitle e.2.items ++ str " y") = true ∧
    (CLASSES_fix.all fun e =>
      fix_customize_script e.1 e.2 (str "demo items") == e.2.items &&
      fix_customize_script e.1 e.2 (str "Demo Items") == pyTitle e.2.items &&
      fix_customize_script e.1 e.2 (str "x demo items y")
        == str "x " ++ e.2.items ++ str " y" &&
      fix_customize_script e.1 e.2 (str "x Demo Items y")
        == str "x " ++ pyTitle e.2.items ++ str " y") = true := by
  decide

/-- a file system holding only the demo script of `fix_all_pages.py`
(its demo style.css is absent). -/
def fsScriptOnly : FS := writeFS emptyFS fixDemoScript (str "x")

/-- Claim C8 counterexample: when only the demo `style.css` is absent,
the run of `fix_all_pages.py` fails with the source-missing error but
has already written the first entity script: on a file system holding
only the demo script, the failed run leaves
`edge-tests-wishlist/script.js` written, which was absent before. -/
theorem claim_C8_counterexample :
    (runFixFS fsScriptOnly).2 = some (str "SourceMissing") ∧
    fsScriptOnly (fixScriptTarget (str "wishlist")) = none ∧
    (runFixFS fsScriptOnly).1 (fixScriptTarget (str "wishlist")) = some (str "x") := by
  decide

/-- Claim C8 amended: when the demo `script.js` is absent each of the
three customizer runs fails with the source-missing error and leaves
the file system completely unchanged; but when only the demo
`style.css` is absent, `fix_all_pages.py` first writes the wishlist
script target and only then fails, so a failed run can leave one output
file behind. -/
theorem claim_C8_amended :
    (∀ fs : FS, fs scriptsDemoPath = none →
      runScriptsFS fs = (fs, some (str "SourceMissing"))) ∧
    (∀ fs : FS, fs allDemoPath = none →
      runAllFS fs = (fs, some (str "SourceMissing"))) ∧
    (∀ fs : FS, fs fixDemoScript = none →
      runFixFS fs = (fs, some (str "SourceMissing"))) ∧
    (∀ (fs : FS) (d : List Char), fs fixDemoScript = some d → fs fixDemoStyle = none →
      runFixFS fs =
        (writeFS fs (fixScriptTarget (str "wishlist"))
          (fix_customize_script (str "wishlist") wishlistFix d),
         some (str "SourceMissing"))) := by
  refine ⟨?_, ?_, ?_, ?_⟩
  · intro fs h
    exact goScripts_err CLASSES_scripts fs (by simp [CLASSES_scripts]) h
  · intro fs h
    show goAll CLASSES_all fs = _
    simp [CLASSES_all, goAll, h]
  · intro fs h
    show goFix CLASSES_fix fs = _
    simp [CLASSES_fix, goFix, h]
  · intro fs d h1 h2
    show goFix CLASSES_fix fs = _
    have hne : fixDemoStyle ≠ fixScriptTarget (str "wishlist") := by decide
    have hsty : writeFS fs (fixScriptTarget (str "wishlist"))
        (fix_customize_script (str "wishlist") wishlistFix d) fixDemoStyle = none := by
      rw [writeFS_other fs _ _ _ hne]
      exact h2
    simp only [CLASSES_fix, goFix, h1, hsty]

/-- Claim C8 witness: the amended claim on the empty file system. -/
theorem claim_C8_witness :
    runScriptsFS emptyFS = (emptyFS, some (str "SourceMissing")) :=
  claim_C8_amended.1 emptyFS rfl

/-- Claim C9: the run of `customize_scripts.py` is a deterministic
function of the demo script content: on any file system holding the
demo script it succeeds; running it a second time on the resulting file
system rewrites byte-identical contents and leaves the file system
exactly as after the first run; and two runs on any two file systems
holding the same demo content write identical contents to every target
path. -/
theorem claim_C9 :
    ∀ (fs : FS) (d : List Char), fs scriptsDemoPath = some d →
      (runScriptsFS fs).2 = none ∧
      runScriptsFS ((runScriptsFS fs).1) = runScriptsFS fs ∧
      (∀ fs2 : FS, fs2 scriptsDemoPath = some d → ∀ e ∈ CLASSES_scripts,
        (runScriptsFS fs).1 (scriptsTarget e.1) = (runScriptsFS fs2).1 (scriptsTarget e.1)) := by
  intro fs d hd
  simp only [runScriptsFS]
  have hA : ∀ e ∈ CLASSES_scripts, scriptsTarget e.1 ≠ scriptsDemoPath := by decide
  have hN : (List.map (fun e => scriptsTarget e.1) CLASSES_scripts).Nodup := by decide
  have h2 : (goScripts CLASSES_scripts fs).2 = none := goScripts_ok CLASSES_scripts fs d hd hA
  have hdp : (goScripts CLASSES_scripts fs).1 scriptsDemoPath = some d := by
    rw [goScripts_pres CLASSES_scripts fs scriptsDemoPath hA]
    exact hd
  have hw := goScripts_writes CLASSES_scripts fs d hd hA hN
  refine ⟨h2, ?_, ?_⟩
  · have hpair : goScripts CLASSES_scripts fs = ((goScripts CLASSES_scripts fs).1, none) := by
      rw [← h2]
    have hstable : goScripts CLASSES_scripts ((goScripts CLASSES_scripts fs).1)
        = ((goScripts CLASSES_scripts fs).1, none) :=
      goScripts_stable CLASSES_scripts _ d hdp hw
    rw [hstable]
    exact hpair.symm
  · intro fs2 hd2 e he
    rw [hw e he, goScripts_writes CLASSES_scripts fs2 d hd2 hA hN e he]

/-- a file system holding the demo script of `customize_scripts.py`. -/
def fsDemo : FS := writeFS emptyFS scriptsDemoPath (str "demo body")

/-- Claim C9 witness: a concrete run on a file system holding the demo
script succeeds, and a second run leaves the file system unchanged. -/
theorem claim_C9_witness :
    (runScriptsFS fsDemo).2 = none ∧
    runScriptsFS ((runScriptsFS fsDemo).1) = runScriptsFS fsDemo := by
  have h := claim_C9 fsDemo (str "demo body") (by decide)
  exact ⟨h.1, h.2.1⟩

/-- Claim C10: every entry of the static table of `customize_scripts.py`
has its config_key equal to the table key and its endpoint_base equal to
a slash followed by the key; consequently an occurrence of /demo is
rewritten to /KEY for every entity, even though it is the earlier bare
demo rule that performs the rewrite and the dedicated /demo rule never
fires. -/
theorem claim_C10 :
    (CLASSES_scripts.all fun e =>
      e.2.config_key == e.1 && e.2.endpoint_base == str "/" ++ e.1) = true ∧
    (CLASSES_scripts.all fun e =>
      customize_script e.2 (str "fetch(\"/demo\", data)")
        == str "fetch(\"/" ++ e.1 ++ str "\", data)") = true := by
  decide
